import Mathlib

/-!
Verification development for the BiBip car-service storage engine
(`src/bibip_car_service.py`).

The repository stores three entity families (models, cars, sales) in
fixed-width record files with side-car key indexes.  We embed the code
shallowly:

* The fixed-width record-file primitives (`_write_fixed_length_line`,
  `_read_fixed_length_line`) are modelled at character level on
  `List Char` (a Python string).

* The repository operations are modelled at record level: each record
  file is a `List` of lines, where a line is either blank, malformed
  (its field count does not match the entity's arity — the "Corrupt"
  condition of the spec), or a parsed record.  Python's `Decimal` and
  `datetime` values are represented by their normal-form serialization
  strings (for such strings `str(Decimal(s)) == s` and
  `datetime.fromisoformat(s).isoformat() == s`), with explicit parsers
  (`parseDec`, `isoDateOk`) applied exactly where the Python code
  parses, so that parse-failure skips in the scans are preserved.
  Exact rationals stand in for `Decimal` arithmetic.

* Python `dict`s (the key indexes, the aggregation accumulators) are
  association lists with Python-dict semantics: assignment replaces the
  value in place at the key's existing position or appends a fresh key
  at the end, and iteration is in insertion order.  `_load_index` /
  `_save_index` round-trip the whole mapping and are modelled as the
  identity on the in-state index.

* Every mutating operation returns the post state together with an
  `Except`-style result, because a Python exception raised mid-way
  leaves the files as already written (there is no rollback).

The `Model.index`, `Car.index` and `Sale.index` helpers live in the
repository's `models.py`, which is not part of the given sources.
Modelled from the spec: models are keyed by the textual id, cars by the
VIN and sales by the sale number ("keyed by id", "keyed by VIN",
"keyed by sale number"); `add_car` in the given source confirms the
model key shape via `str(car.model)`.
-/

set_option maxRecDepth 4000

namespace Bibip

/-- Error kinds of §7 of the spec.  In Python all of these are
`ValueError`; the kind records which check raised. -/
inductive Err where
  | duplicateKey
  | referenceNotFound
  | notFound
  | invalidState
  | lengthExceeded
  | corrupt
deriving DecidableEq, Repr

/-! ### Fixed-width record file (character level)

Models `_write_fixed_length_line` / `_read_fixed_length_line`.
A file is its character content; record `n` starts at offset `n * 501`.
A seek past the end of the file zero-fills the gap. -/

/-- LINE_DATA_LENGTH from the source. -/
def LINE_DATA_LENGTH : Nat := 500

/-- LINE_TOTAL_LENGTH from the source. -/
def LINE_TOTAL_LENGTH : Nat := 501

/-- Python `str.rstrip()` on the character list: drop trailing
whitespace. -/
def rstripL (l : List Char) : List Char :=
  (l.reverse.dropWhile Char.isWhitespace).reverse

/-- Pad a file with NUL characters up to length `n` (the implicit
zero-fill of a write past the end of the file). -/
def padTo (f : List Char) (n : Nat) : List Char :=
  f ++ List.replicate (n - f.length) (Char.ofNat 0)

/-- Embeds `_write_fixed_length_line`: reject oversized data, otherwise
left-justify to 500 characters, add the terminator and overwrite the
501-character block at offset `n * 501`. -/
def write_fixed_length_line (f : List Char) (n : Nat) (data : List Char) :
    Except Err (List Char) :=
  if LINE_DATA_LENGTH < data.length then .error .lengthExceeded
  else
    .ok ((padTo f (n * LINE_TOTAL_LENGTH)).take (n * LINE_TOTAL_LENGTH)
      ++ (data ++ List.replicate (LINE_DATA_LENGTH - data.length) ' ')
      ++ ['\n'] ++ f.drop ((n + 1) * LINE_TOTAL_LENGTH))

/-- Embeds `_read_fixed_length_line`: read the 500 data characters at
offset `n * 501` (fewer near the end of the file) and strip trailing
whitespace. -/
def read_fixed_length_line (f : List Char) (n : Nat) : List Char :=
  rstripL ((f.drop (n * LINE_TOTAL_LENGTH)).take LINE_DATA_LENGTH)

/-! ### Entities and stored lines -/

/-- CarStatus from `models.py` (observed values). -/
inductive CarStatus where
  | available
  | sold
deriving DecidableEq, Repr

/-- Serialized form of a status tag (`status.value`). -/
def statusStr : CarStatus → String
  | .available => "available"
  | .sold => "sold"

/-- A model record: id, name, brand. -/
structure Model where
  id : Int
  name : String
  brand : String
deriving DecidableEq, Repr

/-- A car record: VIN, model id, price, start date, status.  `price`
and `date_start` hold the normal-form `Decimal` / isoformat strings. -/
structure Car where
  vin : String
  model : Int
  price : String
  date_start : String
  status : CarStatus
deriving DecidableEq, Repr

/-- A sale, as passed to `sell_car`.  `cost` and `sales_date` hold the
normal-form `Decimal` / isoformat strings. -/
structure Sale where
  sales_number : String
  car_vin : String
  cost : String
  sales_date : String
deriving DecidableEq, Repr

/-- A stored sale record.  `key` is the stored key field: the sale
number, or `"DELETED_" ++ number` once tombstoned. -/
structure SaleRec where
  key : String
  car_vin : String
  cost : String
  sales_date : String
deriving DecidableEq, Repr

/-- A line of `models.txt`: blank, malformed (field count ≠ 3), or a
record. -/
inductive ModelLine where
  | blank
  | malformed
  | row (m : Model)
deriving DecidableEq, Repr

/-- A line of `cars.txt`: blank, malformed (field count ≠ 5), or a
record. -/
inductive CarLine where
  | blank
  | malformed
  | row (c : Car)
deriving DecidableEq, Repr

/-- A line of `sales.txt`: blank, malformed (field count ≠ 4), or a
record. -/
inductive SaleLine where
  | blank
  | malformed
  | row (s : SaleRec)
deriving DecidableEq, Repr

/-- Python `line.startswith('DELETED_')` on a stored sale key (a sale
line starts with its key field, so the whole-line check of
`top_models_by_sales` and the key-field check of `revert_sale`
coincide). -/
def delMarked (s : String) : Bool :=
  "DELETED_".data.isPrefixOf s.data

/-! ### Serialization (the record codec) -/

/-- Serialization of a model: `f'{model.id}|{model.name}|{model.brand}'`. -/
def serModel (m : Model) : String :=
  toString m.id ++ "|" ++ m.name ++ "|" ++ m.brand

/-- Serialization of a car:
`f'{car.vin}|{car.model}|{price_str}|{date_str}|{status_str}'`. -/
def serCar (c : Car) : String :=
  c.vin ++ "|" ++ toString c.model ++ "|" ++ c.price ++ "|"
    ++ c.date_start ++ "|" ++ statusStr c.status

/-- Serialization of a sale:
`f'{sale.sales_number}|{sale.car_vin}|{cost_str}|{date_str}'`. -/
def serSale (s : Sale) : String :=
  s.sales_number ++ "|" ++ s.car_vin ++ "|" ++ s.cost ++ "|" ++ s.sales_date

/-! ### Field parsers

`parseDec` models the `Decimal` constructor on plain decimal literals
(optional sign, digits, at most one point); `isoDateOk` models success
of `datetime.fromisoformat`. -/

/-- Numeric value of a digit list, most significant first. -/
def digitsToNat (l : List Char) : Nat :=
  l.foldl (fun n c => 10 * n + (c.toNat - 48)) 0

/-- Parse a plain decimal literal to an exact rational, as the
`Decimal` constructor does (`Decimal` arithmetic on such literals is
exact decimal arithmetic). -/
def parseDec (s : String) : Option ℚ :=
  let (sgn, body) :=
    match s.data with
    | '-' :: t => ((-1 : ℚ), t)
    | '+' :: t => ((1 : ℚ), t)
    | t => ((1 : ℚ), t)
  let ip := body.takeWhile (fun c => c ≠ '.')
  let rest := body.dropWhile (fun c => c ≠ '.')
  match rest with
  | [] =>
    if ip ≠ [] ∧ ip.all Char.isDigit then
      some (sgn * (digitsToNat ip : ℚ))
    else none
  | '.' :: fp =>
    if (ip ++ fp) ≠ [] ∧ (ip ++ fp).all Char.isDigit then
      some (sgn * (digitsToNat (ip ++ fp) : ℚ) / ((10 : ℚ) ^ fp.length))
    else none
  | _ => none

/-- Validity of the optional fractional-seconds tail of an isoformat
time. -/
def isoFracOk : List Char → Bool
  | [] => true
  | '.' :: ds => !ds.isEmpty && ds.all Char.isDigit
  | _ => false

/-- Validity of the optional time part of an isoformat string. -/
def isoTimeOk : List Char → Bool
  | [] => true
  | sep :: h1 :: h2 :: ':' :: m1 :: m2 :: ':' :: s1 :: s2 :: rest =>
    (sep = 'T' || sep = ' ') && [h1, h2, m1, m2, s1, s2].all Char.isDigit
      && digitsToNat [h1, h2] < 24 && digitsToNat [m1, m2] < 60
      && digitsToNat [s1, s2] < 60 && isoFracOk rest
  | _ => false

/-- Success of `datetime.fromisoformat`: `YYYY-MM-DD` optionally
followed by a time part. -/
def isoDateOk (s : String) : Bool :=
  match s.data with
  | y1 :: y2 :: y3 :: y4 :: '-' :: m1 :: m2 :: '-' :: d1 :: d2 :: rest =>
    ([y1, y2, y3, y4, m1, m2, d1, d2].all Char.isDigit)
      && 1 ≤ digitsToNat [m1, m2] && digitsToNat [m1, m2] ≤ 12
      && 1 ≤ digitsToNat [d1, d2] && digitsToNat [d1, d2] ≤ 31
      && isoTimeOk rest
  | _ => false

/-! ### Key indexes (Python dicts) -/

/-- The value stored under a key, if any (`dict.get`). -/
def dlookup (d : List (String × Nat)) (k : String) : Option Nat :=
  match d with
  | [] => none
  | p :: rest => if p.1 = k then some p.2 else dlookup rest k

/-- Key containment (`k in dict`). -/
def dmem (d : List (String × Nat)) (k : String) : Bool :=
  (dlookup d k).isSome

/-- Assignment `dict[k] = v`: replace in place at the key's position,
or append a fresh key at the end. -/
def dset (d : List (String × Nat)) (k : String) (v : Nat) :
    List (String × Nat) :=
  match d with
  | [] => [(k, v)]
  | p :: rest => if p.1 = k then (k, v) :: rest else p :: dset rest k v

/-- Deletion `del dict[k]`. -/
def ddel (d : List (String × Nat)) (k : String) : List (String × Nat) :=
  d.filter (fun p => p.1 ≠ k)

/-! ### Stable insertion sort

`sortL keep` inserts each element after every earlier element `y` with
`keep y x`; with `keep y x := key y ≤ key x` resp. `key x ≤ key y` this
is exactly Python's stable `sorted(...)` ascending resp.
`list.sort(reverse=True)` descending. -/

/-- Insert `x` after every prefix element `y` with `keep y x = true`. -/
def insL (keep : α → α → Bool) (x : α) : List α → List α
  | [] => [x]
  | y :: l => if keep y x then y :: insL keep x l else x :: y :: l

/-- Stable insertion sort. -/
def sortL (keep : α → α → Bool) (l : List α) : List α :=
  l.foldl (fun acc x => insL keep x acc) []

/-! ### The store

One directory: three record files and three key indexes.  A missing
file and an empty file coincide in this model (a missing record file
reads as zero lines, a missing index loads as the empty mapping). -/

/-- The whole persisted state of a `CarService` directory. -/
structure Store where
  models : List ModelLine
  cars : List CarLine
  sales : List SaleLine
  modelsIdx : List (String × Nat)
  carsIdx : List (String × Nat)
  salesIdx : List (String × Nat)
deriving DecidableEq, Repr

/-- Read record `n` of the car file; a read past the end of the file
yields the empty string, i.e. a blank line. -/
def readCar (cars : List CarLine) (n : Nat) : CarLine :=
  (cars.get? n).getD .blank

/-- Read record `n` of the model file. -/
def readModel (models : List ModelLine) (n : Nat) : ModelLine :=
  (models.get? n).getD .blank

/-- Read record `n` of the sale file. -/
def readSale (sales : List SaleLine) (n : Nat) : SaleLine :=
  (sales.get? n).getD .blank

/-! ### Repository operations

Each mutating operation returns the post state together with the
result; a failure after a write keeps the write (no rollback).  A
blank or malformed record hit by a direct key-addressed read is the
`corrupt` outcome (in Python, the record constructor raises
`ValueError` on such a line). -/

/-- Embeds `add_model`: duplicate check, length check, append, index
update. -/
def add_model (m : Model) (st : Store) : Store × Except Err Model :=
  if dmem st.modelsIdx (toString m.id) then (st, .error .duplicateKey)
  else if LINE_DATA_LENGTH < (serModel m).length then
    (st, .error .lengthExceeded)
  else
    ({ st with
        models := st.models ++ [.row m],
        modelsIdx := dset st.modelsIdx (toString m.id) st.models.length },
      .ok m)

/-- Embeds `add_car`: duplicate check, model reference check, length
check, append, index update. -/
def add_car (c : Car) (st : Store) : Store × Except Err Car :=
  if dmem st.carsIdx c.vin then (st, .error .duplicateKey)
  else if ¬ dmem st.modelsIdx (toString c.model) then
    (st, .error .referenceNotFound)
  else if LINE_DATA_LENGTH < (serCar c).length then
    (st, .error .lengthExceeded)
  else
    ({ st with
        cars := st.cars ++ [.row c],
        carsIdx := dset st.carsIdx c.vin st.cars.length },
      .ok c)

/-- Embeds `sell_car`: serialize and append the sale (no duplicate
check), persist its index entry, then resolve the car by VIN, reject
an already-sold car, and rewrite the car in place with status `sold`.
The appended sale and its index entry survive every later failure. -/
def sell_car (s : Sale) (st : Store) : Store × Except Err Car :=
  if LINE_DATA_LENGTH < (serSale s).length then (st, .error .lengthExceeded)
  else
    let st1 := { st with
      sales := st.sales ++ [.row ⟨s.sales_number, s.car_vin, s.cost, s.sales_date⟩],
      salesIdx := dset st.salesIdx s.sales_number st.sales.length }
    match dlookup st1.carsIdx s.car_vin with
    | none => (st1, .error .notFound)
    | some n =>
      match readCar st1.cars n with
      | .row c =>
        if c.status = .sold then (st1, .error .invalidState)
        else
          let c' := { c with status := CarStatus.sold }
          if LINE_DATA_LENGTH < (serCar c').length then
            (st1, .error .lengthExceeded)
          else ({ st1 with cars := st1.cars.set n (.row c') }, .ok c')
      | _ => (st1, .error .corrupt)

/-- Whether a stored car record would re-parse in a scan (its price is
a `Decimal` literal and its date an isoformat string). -/
def carParses (c : Car) : Bool :=
  (parseDec c.price).isSome && isoDateOk c.date_start

/-- Embeds `get_cars`: full scan in record order, skipping blank,
malformed and unparsable lines, collecting the cars whose status
matches.  (The commented-out sort of the source never runs: the result
stays in scan order.) -/
def get_cars (status : CarStatus) (st : Store) : List Car :=
  st.cars.foldl
    (fun acc l =>
      match l with
      | .row c =>
        if carParses c then
          (if c.status = status then acc ++ [c] else acc)
        else acc
      | _ => acc)
    []

/-- The full-info view assembled by `get_car_info`; sale cost and date
are the stored strings of the matched sale record, when any. -/
structure CarFullInfo where
  vin : String
  car_model_name : String
  car_model_brand : String
  price : String
  date_start : String
  status : CarStatus
  sales_date : Option String
  sales_cost : Option String
deriving DecidableEq, Repr

/-- The sale-file scan of `get_car_info` for a sold car, as the Python
loop runs it: the running pair is (cost, date); on a VIN match the
cost is assigned as soon as it parses, the date only when it also
parses — and then the loop breaks.  There is no tombstone check. -/
def sale_scan (vin : String) : List SaleLine → Option String × Option String →
    Option String × Option String
  | [], acc => acc
  | l :: rest, acc =>
    match l with
    | .row s =>
      if s.car_vin = vin then
        match parseDec s.cost with
        | none => sale_scan vin rest acc
        | some _ =>
          if isoDateOk s.sales_date then (some s.cost, some s.sales_date)
          else sale_scan vin rest (some s.cost, acc.2)
      else sale_scan vin rest acc
    | _ => sale_scan vin rest acc

/-- Embeds `get_car_info`: car by index, model by index, then — only
for a sold car — the sale-file scan. -/
def get_car_info (vin : String) (st : Store) : Option CarFullInfo :=
  match dlookup st.carsIdx vin with
  | none => none
  | some n =>
    match readCar st.cars n with
    | .row c =>
      match dlookup st.modelsIdx (toString c.model) with
      | none => none
      | some mn =>
        match readModel st.models mn with
        | .row m =>
          let sd :=
            if c.status = .sold then sale_scan vin st.sales (none, none)
            else (none, none)
          some ⟨c.vin, m.name, m.brand, c.price, c.date_start, c.status,
            sd.2, sd.1⟩
        | _ => none
    | _ => none

/-- Ascending-by-key comparison used to persist the car index sorted. -/
def keyLE (a b : String × Nat) : Bool := decide (a.1 ≤ b.1)

/-- Embeds `update_vin`: duplicate check on the new VIN first, then
resolve the old VIN, rewrite the record in place with only the VIN
replaced, move the index entry and persist the index sorted by key. -/
def update_vin (vin new_vin : String) (st : Store) : Store × Except Err Car :=
  if dmem st.carsIdx new_vin then (st, .error .duplicateKey)
  else
    match dlookup st.carsIdx vin with
    | none => (st, .error .notFound)
    | some n =>
      match readCar st.cars n with
      | .row c =>
        let c' := { c with vin := new_vin }
        if LINE_DATA_LENGTH < (serCar c').length then
          (st, .error .lengthExceeded)
        else
          ({ st with
              cars := st.cars.set n (.row c'),
              carsIdx := sortL keyLE (dset (ddel st.carsIdx vin) new_vin n) },
            .ok c')
      | _ => (st, .error .corrupt)

/-- Running state of the `revert_sale` sale scan, mirroring the five
Python locals.  `found`, the line number and the VIN are assigned as
soon as the key matches; the cost and date only once they parse, the
loop breaking after the date. -/
structure RevScan where
  found : Bool
  lineNo : Option Nat
  vin : Option String
  cost : Option String
  date : Option String
deriving DecidableEq, Repr

/-- The sale scan of `revert_sale`: first live (non-tombstoned) record
whose key equals the sale number. -/
def revert_scan (num : String) : List SaleLine → Nat → RevScan → RevScan
  | [], _, acc => acc
  | l :: rest, i, acc =>
    match l with
    | .row s =>
      if delMarked s.key then revert_scan num rest (i + 1) acc
      else if s.key = num then
        let acc1 := { acc with found := true, lineNo := some i, vin := some s.car_vin }
        match parseDec s.cost with
        | none => revert_scan num rest (i + 1) acc1
        | some _ =>
          let acc2 := { acc1 with cost := some s.cost }
          if isoDateOk s.sales_date then { acc2 with date := some s.sales_date }
          else revert_scan num rest (i + 1) acc2
      else revert_scan num rest (i + 1) acc
    | _ => revert_scan num rest (i + 1) acc

/-- Embeds `revert_sale`: find the live sale by number, resolve its
car, require status `sold`, tombstone the sale record in place,
remove the *VIN* key from the sales index when present (the code
deletes `sale_vin`, not `sales_number`), and rewrite the car as
`available`. -/
def revert_sale (num : String) (st : Store) : Store × Except Err Car :=
  match revert_scan num st.sales 0 ⟨false, none, none, none, none⟩ with
  | ⟨false, _, _, _, _⟩ => (st, .error .notFound)
  | ⟨true, lno?, vin?, cost?, date?⟩ =>
    match lno?, vin?, cost?, date? with
    | some lno, some v, some cs, some ds =>
      match dlookup st.carsIdx v with
      | none => (st, .error .notFound)
      | some n =>
        match readCar st.cars n with
        | .row c =>
          if c.status ≠ CarStatus.sold then (st, .error .invalidState)
          else
            let tomb : SaleRec := ⟨"DELETED_" ++ num, v, cs, ds⟩
            let tombData := ("DELETED_" ++ num) ++ "|" ++ v ++ "|" ++ cs ++ "|" ++ ds
            if LINE_DATA_LENGTH < tombData.length then
              (st, .error .lengthExceeded)
            else
              let st1 := { st with sales := st.sales.set lno (.row tomb) }
              let st2 :=
                if dmem st1.salesIdx v then
                  { st1 with salesIdx := ddel st1.salesIdx v }
                else st1
              let c' := { c with status := CarStatus.available }
              if LINE_DATA_LENGTH < (serCar c').length then
                (st2, .error .lengthExceeded)
              else ({ st2 with cars := st2.cars.set n (.row c') }, .ok c')
        | _ => (st, .error .corrupt)
    | _, _, _, _ => (st, .error .corrupt)

/-! ### top_models_by_sales -/

/-- The aggregate view returned by `top_models_by_sales`. -/
structure ModelSaleStats where
  car_model_name : String
  brand : String
  sales_number : Nat
deriving DecidableEq, Repr

/-- One dict update of the aggregation loop: bump the (count, total)
pair in place at the model id's position, or append a fresh id. -/
def bump (acc : List (Int × Nat × ℚ)) (m : Int) (q : ℚ) :
    List (Int × Nat × ℚ) :=
  match acc with
  | [] => [(m, 1, q)]
  | e :: rest =>
    if e.1 = m then (m, e.2.1 + 1, e.2.2 + q) :: rest else e :: bump rest m q

/-- The per-line extraction of the aggregation scan: skip blank,
tombstoned and malformed lines, parse the cost, resolve the car by
VIN through the index and read its model id. -/
def saleExtract (cidx : List (String × Nat)) (cars : List CarLine)
    (l : SaleLine) : Option (Int × ℚ) :=
  match l with
  | .row s =>
    if delMarked s.key then none
    else
      match parseDec s.cost with
      | none => none
      | some q =>
        match dlookup cidx s.car_vin with
        | none => none
        | some n =>
          match readCar cars n with
          | .row c => some (c.model, q)
          | _ => none
  | _ => none

/-- One step of the aggregation loop. -/
def topStep (cidx : List (String × Nat)) (cars : List CarLine)
    (acc : List (Int × Nat × ℚ)) (l : SaleLine) : List (Int × Nat × ℚ) :=
  match saleExtract cidx cars l with
  | some p => bump acc p.1 p.2
  | none => acc

/-- Insert the average cost: `total / count` when the count is
positive, the guard of the source. -/
def avgize (e : Int × Nat × ℚ) : Int × Nat × ℚ :=
  (e.1, e.2.1, if 0 < e.2.1 then e.2.2 / (e.2.1 : ℚ) else 0)

/-- Python's sort key comparison: `a` is at most `b` when `a` has the
smaller count, or equal counts and at most the average. -/
def statKeyLE (a b : Int × Nat × ℚ) : Bool :=
  decide (a.2.1 < b.2.1 ∨ (a.2.1 = b.2.1 ∧ a.2.2 ≤ b.2.2))

/-- Keep order for the descending stable sort
(`sort(key=..., reverse=True)`): an earlier element stays in front of
a later one exactly when the later key is at most the earlier key. -/
def statKeep (y x : Int × Nat × ℚ) : Bool := statKeyLE x y

/-- Resolve a candidate to its model name and brand through the model
index, pairing it with its sale count; an unresolvable or malformed
model is skipped. -/
def resolveModel (st : Store) (e : Int × Nat × ℚ) : Option ModelSaleStats :=
  match dlookup st.modelsIdx (toString e.1) with
  | none => none
  | some n =>
    match readModel st.models n with
    | .row m => some ⟨m.name, m.brand, e.2.1⟩
    | _ => none

/-- The candidate list of the aggregation: per model id, in first-sale
order, the sale count and the running cost total, then the average. -/
def candStats (st : Store) : List (Int × Nat × ℚ) :=
  (st.sales.foldl (topStep st.carsIdx st.cars) []).map avgize

/-- Embeds `top_models_by_sales`: aggregate, sort by count then
average descending, take the top 3, resolve names. -/
def top_models_by_sales (st : Store) : List ModelSaleStats :=
  ((sortL statKeep (candStats st)).take 3).filterMap (resolveModel st)

/-! ### Spec-side (declarative) definitions

These re-state, in the spec's words, what the scans are claimed to
compute; the claim theorems relate them to the embedded operations. -/

/-- The cars a scan can see: the parsed records of the car file in
record order, blank and malformed lines skipped. -/
def live_cars (st : Store) : List Car :=
  st.cars.filterMap
    (fun l =>
      match l with
      | .row c => if carParses c then some c else none
      | _ => none)

/-- The first sale record of the file whose VIN matches — whether or
not it is tombstoned — with its stored cost and date strings. -/
def first_sale_match (vin : String) (sales : List SaleLine) :
    Option (String × String) :=
  sales.findSome?
    (fun l =>
      match l with
      | .row s => if s.car_vin = vin then some (s.cost, s.sales_date) else none
      | _ => none)

/-- The live sales of the aggregation scan, resolved to (model id,
cost): blank, tombstoned, malformed lines and unresolvable VINs
skipped. -/
def live_sale_models (st : Store) : List (Int × ℚ) :=
  st.sales.filterMap (saleExtract st.carsIdx st.cars)

/-- The distinct model ids of a resolved sale list, in first-sale
order. -/
def keys_in_order (L : List (Int × ℚ)) : List Int :=
  L.foldl (fun ks p => if p.1 ∈ ks then ks else ks ++ [p.1]) []

/-- Per model id, in first-sale order: the sale count and the cost
total, stated by counting rather than by the loop's dict. -/
def stats_spec (L : List (Int × ℚ)) : List (Int × Nat × ℚ) :=
  (keys_in_order L).map
    (fun m =>
      (m, L.countP (fun p => p.1 == m),
        ((L.filter (fun p => p.1 == m)).map (fun p => p.2)).sum))

/-- The spec-side candidates: counted stats with the exact average
`total / count`. -/
def spec_cands (st : Store) : List (Int × Nat × ℚ) :=
  (stats_spec (live_sale_models st)).map
    (fun e => (e.1, e.2.1, e.2.2 / (e.2.1 : ℚ)))

/-- The spec-side statement of `top_models_by_sales`: sort the counted
candidates by count then average, descending, stably; take the top 3;
resolve names through the model index. -/
def top_models_spec (st : Store) : List ModelSaleStats :=
  ((sortL statKeep (spec_cands st)).take 3).filterMap (resolveModel st)

/-! ### The record-number invariant -/

/-- Every value of a key index is a valid record number of a file with
`len` records. -/
def idx_ok (d : List (String × Nat)) (len : Nat) : Prop :=
  ∀ p ∈ d, p.2 < len

instance (d : List (String × Nat)) (len : Nat) : Decidable (idx_ok d len) :=
  inferInstanceAs (Decidable (∀ p ∈ d, p.2 < len))

/-- The store invariant of claim C9: each of the three key indexes
holds only in-range record numbers for its file. -/
def WF (st : Store) : Prop :=
  idx_ok st.modelsIdx st.models.length ∧ idx_ok st.carsIdx st.cars.length
    ∧ idx_ok st.salesIdx st.sales.length

instance (st : Store) : Decidable (WF st) :=
  inferInstanceAs (Decidable (_ ∧ _ ∧ _))

/-! ## Lemmas: fixed-width layer -/

lemma dropWhile_replicate_append (p : Char → Bool) (c : Char) (h : p c = true)
    (k : Nat) (l : List Char) :
    List.dropWhile p (List.replicate k c ++ l) = List.dropWhile p l := by
  induction k with
  | zero => simp
  | succ k ih => simp [List.replicate_succ, List.dropWhile_cons, h, ih]

lemma rstripL_append_spaces (l : List Char) (k : Nat) :
    rstripL (l ++ List.replicate k ' ') = rstripL l := by
  unfold rstripL
  rw [List.reverse_append, List.reverse_replicate,
    dropWhile_replicate_append _ _ (by decide)]

lemma padTo_take_length (f : List Char) (m : Nat) :
    ((padTo f m).take m).length = m := by
  simp only [padTo, List.length_take, List.length_append,
    List.length_replicate]
  omega

/-- Helper for claim C5: failure on oversized data, and the value of a
read straight after a write of in-range data — the data with its
trailing whitespace (its own and the fill padding alike) stripped. -/
lemma write_read_general (f : List Char) (n : Nat) (data : List Char) :
    (LINE_DATA_LENGTH < data.length →
      write_fixed_length_line f n data = .error .lengthExceeded) ∧
    (data.length ≤ LINE_DATA_LENGTH →
      (write_fixed_length_line f n data).map
        (fun g => read_fixed_length_line g n) = .ok (rstripL data)) := by
  constructor
  · intro h
    simp [write_fixed_length_line, h]
  · intro h
    have hnot : ¬ LINE_DATA_LENGTH < data.length := Nat.not_lt.mpr h
    simp only [write_fixed_length_line, if_neg hnot, Except.map]
    congr 1
    unfold read_fixed_length_line
    have hlen : (data ++ List.replicate (LINE_DATA_LENGTH - data.length) ' ').length
        = LINE_DATA_LENGTH := by
      simp only [List.length_append, List.length_replicate]; omega
    rw [List.append_assoc, List.append_assoc,
      List.drop_append_of_le_length (padTo_take_length f _).ge,
      List.drop_eq_nil_of_le (padTo_take_length f _).le, List.nil_append,
      List.take_append_of_le_length hlen.ge,
      List.take_of_length_le hlen.le, rstripL_append_spaces]

/-! ## Lemmas: dictionaries -/

lemma dlookup_dset_self (d : List (String × Nat)) (k : String) (v : Nat) :
    dlookup (dset d k v) k = some v := by
  induction d with
  | nil => simp [dset, dlookup]
  | cons p rest ih =>
    by_cases h : p.1 = k
    · simp [dset, dlookup, h]
    · simp [dset, dlookup, h, ih]

lemma dset_length_of_mem (d : List (String × Nat)) (k : String) (v : Nat)
    (h : dmem d k = true) : (dset d k v).length = d.length := by
  induction d with
  | nil => simp [dmem, dlookup] at h
  | cons p rest ih =>
    by_cases hp : p.1 = k
    · simp [dset, hp]
    · have h' : dmem rest k = true := by
        simpa [dmem, dlookup, hp] using h
      simp [dset, hp, ih h']

lemma mem_dset (d : List (String × Nat)) (k : String) (v : Nat) :
    ∀ q ∈ dset d k v, q ∈ d ∨ q = (k, v) := by
  induction d with
  | nil => simp [dset]
  | cons p rest ih =>
    intro q hq
    by_cases hp : p.1 = k
    · simp only [dset, if_pos hp, List.mem_cons] at hq
      rcases hq with rfl | hq
      · exact Or.inr rfl
      · exact Or.inl (List.mem_cons_of_mem _ hq)
    · simp only [dset, if_neg hp, List.mem_cons] at hq
      rcases hq with rfl | hq
      · exact Or.inl (List.mem_cons_self _ _)
      · rcases ih q hq with h | h
        · exact Or.inl (List.mem_cons_of_mem _ h)
        · exact Or.inr h

lemma mem_ddel (d : List (String × Nat)) (k : String) :
    ∀ q ∈ ddel d k, q ∈ d := by
  intro q hq
  exact List.mem_of_mem_filter hq

lemma dlookup_eq_none_iff (d : List (String × Nat)) (k : String) :
    dlookup d k = none ↔ ∀ q ∈ d, q.1 ≠ k := by
  induction d with
  | nil => simp [dlookup]
  | cons p rest ih =>
    by_cases hp : p.1 = k
    · simp [dlookup, hp]
    · simp [dlookup, hp, ih]

lemma dlookup_of_mem_unique (d : List (String × Nat)) (k : String) (v : Nat)
    (hmem : (k, v) ∈ d) (huniq : ∀ q ∈ d, q.1 = k → q = (k, v)) :
    dlookup d k = some v := by
  induction d with
  | nil => simp at hmem
  | cons p rest ih =>
    by_cases hp : p.1 = k
    · have hpv : p = (k, v) := huniq p (List.mem_cons_self _ _) hp
      simp [dlookup, hp, hpv]
    · have hmem' : (k, v) ∈ rest := by
        rcases List.mem_cons.mp hmem with heq | h
        · exact absurd (by rw [← heq]) hp
        · exact h
      have huniq' : ∀ q ∈ rest, q.1 = k → q = (k, v) := fun q hq hq1 =>
        huniq q (List.mem_cons_of_mem _ hq) hq1
      simp [dlookup, hp, ih hmem' huniq']

/-! ## Lemmas: the stable insertion sort -/

lemma insL_perm (keep : α → α → Bool) (x : α) (l : List α) :
    List.Perm (insL keep x l) (x :: l) := by
  induction l with
  | nil => exact List.Perm.refl _
  | cons y l ih =>
    simp only [insL]
    by_cases h : keep y x
    · rw [if_pos h]
      exact (ih.cons y).trans (List.Perm.swap x y l)
    · rw [if_neg h]

lemma sortL_perm_aux (keep : α → α → Bool) (l : List α) :
    ∀ acc : List α,
      List.Perm (l.foldl (fun a x => insL keep x a) acc) (acc ++ l) := by
  induction l with
  | nil => intro acc; simp
  | cons x l ih =>
    intro acc
    have h1 := ih (insL keep x acc)
    have h2 : List.Perm (insL keep x acc ++ l) ((x :: acc) ++ l) :=
      (insL_perm keep x acc).append_right l
    have h3 : List.Perm ((x :: acc) ++ l) (acc ++ x :: l) :=
      List.perm_middle.symm
    exact (h1.trans h2).trans h3

lemma sortL_perm (keep : α → α → Bool) (l : List α) :
    List.Perm (sortL keep l) l := by
  simpa using sortL_perm_aux keep l []

lemma insL_sorted (keep : α → α → Bool)
    (htot : ∀ a b, keep a b = false → keep b a = true)
    (htrans : ∀ a b c, keep a b = true → keep b c = true → keep a c = true)
    (x : α) (l : List α) (hl : l.Pairwise (fun a b => keep a b = true)) :
    (insL keep x l).Pairwise (fun a b => keep a b = true) := by
  induction l with
  | nil => simp [insL]
  | cons y l ih =>
    rcases List.pairwise_cons.mp hl with ⟨hy, hl'⟩
    simp only [insL]
    by_cases h : keep y x
    · rw [if_pos h]
      refine List.pairwise_cons.mpr ⟨?_, ih hl'⟩
      intro z hz
      rcases List.mem_cons.mp ((insL_perm keep x l).mem_iff.mp hz) with rfl | hzl
      · exact h
      · exact hy z hzl
    · have hx : keep x y = true := htot _ _ (Bool.eq_false_iff.mpr h)
      rw [if_neg h]
      refine List.pairwise_cons.mpr ⟨?_, hl⟩
      intro z hz
      rcases List.mem_cons.mp hz with rfl | hzl
      · exact hx
      · exact htrans _ _ _ hx (hy z hzl)

lemma sortL_sorted_aux (keep : α → α → Bool)
    (htot : ∀ a b, keep a b = false → keep b a = true)
    (htrans : ∀ a b c, keep a b = true → keep b c = true → keep a c = true)
    (l : List α) :
    ∀ acc : List α, acc.Pairwise (fun a b => keep a b = true) →
      (l.foldl (fun a x => insL keep x a) acc).Pairwise
        (fun a b => keep a b = true) := by
  induction l with
  | nil => intro acc h; exact h
  | cons x l ih =>
    intro acc h
    exact ih _ (insL_sorted keep htot htrans x acc h)

lemma sortL_sorted (keep : α → α → Bool)
    (htot : ∀ a b, keep a b = false → keep b a = true)
    (htrans : ∀ a b c, keep a b = true → keep b c = true → keep a c = true)
    (l : List α) :
    (sortL keep l).Pairwise (fun a b => keep a b = true) :=
  sortL_sorted_aux keep htot htrans l [] (List.Pairwise.nil)

lemma keyLE_total : ∀ a b : String × Nat, keyLE a b = false → keyLE b a = true := by
  intro a b h
  simp only [keyLE, decide_eq_false_iff_not] at h
  simpa [keyLE] using le_of_not_le h

lemma keyLE_trans : ∀ a b c : String × Nat,
    keyLE a b = true → keyLE b c = true → keyLE a c = true := by
  intro a b c hab hbc
  simp only [keyLE, decide_eq_true_eq] at hab hbc
  simpa [keyLE] using le_trans hab hbc

lemma statKeep_total : ∀ a b : Int × Nat × ℚ,
    statKeep a b = false → statKeep b a = true := by
  intro a b h
  simp only [statKeep, statKeyLE, decide_eq_false_iff_not, not_or, not_and,
    not_lt, not_le] at h
  simp only [statKeep, statKeyLE, decide_eq_true_eq]
  rcases lt_or_eq_of_le h.1 with hlt | heq
  · exact Or.inl hlt
  · exact Or.inr ⟨heq, le_of_lt (h.2 heq.symm)⟩

lemma statKeep_trans : ∀ a b c : Int × Nat × ℚ,
    statKeep a b = true → statKeep b c = true → statKeep a c = true := by
  intro a b c hab hbc
  simp only [statKeep, statKeyLE, decide_eq_true_eq] at hab hbc ⊢
  rcases hab with h1 | ⟨h1, h1q⟩ <;> rcases hbc with h2 | ⟨h2, h2q⟩
  · exact Or.inl (lt_trans h2 h1)
  · exact Or.inl (h2 ▸ h1)
  · exact Or.inl (h1 ▸ h2)
  · exact Or.inr ⟨h2.trans h1, le_trans h2q h1q⟩

/-! ## Claim C5 -/

/-- C5 (amended).  A write of data longer than 500 characters fails
with LengthExceeded and writes nothing; for data within the capacity,
writing at record `n` and reading record `n` back returns the data
with its trailing whitespace stripped — the `rstrip` of the read
removes the data's own trailing fill-class characters together with
the padding, so the round trip returns the data itself exactly when
the data does not end in whitespace. -/
theorem write_read_roundtrip (f : List Char) (n : Nat) (data : List Char) :
    (LINE_DATA_LENGTH < data.length →
      write_fixed_length_line f n data = .error .lengthExceeded) ∧
    (data.length ≤ LINE_DATA_LENGTH →
      (write_fixed_length_line f n data).map
        (fun g => read_fixed_length_line g n) = .ok (rstripL data)) :=
  write_read_general f n data

/-- C5, counterexample to the claim as stated: writing the two-character
data `"a "` (within capacity) and reading it back yields `"a"`, not the
original data — the read strips the data's own trailing space, not just
the fill padding. -/
theorem write_read_not_identity :
    (write_fixed_length_line [] 0 ['a', ' ']).map
      (fun g => read_fixed_length_line g 0) = .ok ['a']
    ∧ (['a'] : List Char) ≠ ['a', ' '] := by
  constructor
  · have h := (write_read_general [] 0 ['a', ' ']).2 (by decide)
    have h2 : rstripL ['a', ' '] = ['a'] := by decide
    rw [h, h2]
  · decide

/-- C5 witness: the amended round trip evaluated on whitespace-free
data of length 2 at record 0 of an empty file. -/
theorem write_read_roundtrip_witness :
    (write_fixed_length_line [] 0 ['a', 'b']).map
      (fun g => read_fixed_length_line g 0) = .ok (rstripL ['a', 'b']) :=
  (write_read_roundtrip [] 0 ['a', 'b']).2 (by decide)

/-! ## sell_car: branch analysis (claims C1 and C4) -/

/-- Complete branch analysis of `sell_car` under a fitting sale
serialization: the sale record and its index entry are persisted in
every branch, the later branches behave as in the source, and the
result is never a duplicate-key failure. -/
lemma sell_car_cases (st : Store) (s : Sale)
    (hlen : (serSale s).length ≤ LINE_DATA_LENGTH) :
    ((sell_car s st).1.sales
        = st.sales ++ [.row ⟨s.sales_number, s.car_vin, s.cost, s.sales_date⟩])
    ∧ ((sell_car s st).1.salesIdx
        = dset st.salesIdx s.sales_number st.sales.length)
    ∧ (dlookup st.carsIdx s.car_vin = none →
        (sell_car s st).2 = .error .notFound
          ∧ (sell_car s st).1.cars = st.cars)
    ∧ (∀ n c, dlookup st.carsIdx s.car_vin = some n →
        readCar st.cars n = .row c → c.status = .sold →
        (sell_car s st).2 = .error .invalidState
          ∧ (sell_car s st).1.cars = st.cars)
    ∧ (∀ n c, dlookup st.carsIdx s.car_vin = some n →
        readCar st.cars n = .row c → c.status = .available →
        (serCar { c with status := CarStatus.sold }).length ≤ LINE_DATA_LENGTH →
        (sell_car s st).2 = .ok { c with status := CarStatus.sold }
          ∧ (sell_car s st).1.cars
              = st.cars.set n (.row { c with status := CarStatus.sold }))
    ∧ ((sell_car s st).2 = .error .notFound
        ∨ (sell_car s st).2 = .error .invalidState
        ∨ (sell_car s st).2 = .error .corrupt
        ∨ (sell_car s st).2 = .error .lengthExceeded
        ∨ ∃ c : Car, (sell_car s st).2 = .ok c) := by
  have hnl : ¬ LINE_DATA_LENGTH < (serSale s).length := Nat.not_lt.mpr hlen
  rcases hq : dlookup st.carsIdx s.car_vin with _ | n
  · refine ⟨by simp [sell_car, hnl, hq], by simp [sell_car, hnl, hq],
      fun _ => ⟨by simp [sell_car, hnl, hq], by simp [sell_car, hnl, hq]⟩,
      ?_, ?_, Or.inl (by simp [sell_car, hnl, hq])⟩
    · intro n' c' hn' _ _
      cases hn'
    · intro n' c' hn' _ _ _
      cases hn'
  · rcases hr : readCar st.cars n with _ | _ | c
    · refine ⟨by simp [sell_car, hnl, hq, hr], by simp [sell_car, hnl, hq, hr],
        fun hnone => absurd hnone (by simp), ?_, ?_,
        Or.inr (Or.inr (Or.inl (by simp [sell_car, hnl, hq, hr])))⟩
      · intro n' c' hn' hr' _
        cases hn'
        rw [hr] at hr'
        cases hr'
      · intro n' c' hn' hr' _ _
        cases hn'
        rw [hr] at hr'
        cases hr'
    · refine ⟨by simp [sell_car, hnl, hq, hr], by simp [sell_car, hnl, hq, hr],
        fun hnone => absurd hnone (by simp), ?_, ?_,
        Or.inr (Or.inr (Or.inl (by simp [sell_car, hnl, hq, hr])))⟩
      · intro n' c' hn' hr' _
        cases hn'
        rw [hr] at hr'
        cases hr'
      · intro n' c' hn' hr' _ _
        cases hn'
        rw [hr] at hr'
        cases hr'
    · cases hst : c.status with
      | sold =>
        refine ⟨by simp [sell_car, hnl, hq, hr, hst], by simp [sell_car, hnl, hq, hr, hst],
          fun hnone => absurd hnone (by simp), ?_, ?_,
          Or.inr (Or.inl (by simp [sell_car, hnl, hq, hr, hst]))⟩
        · intro n' c' hn' hr' _
          cases hn'
          rw [hr] at hr'
          cases hr'
          exact ⟨by simp [sell_car, hnl, hq, hr, hst],
            by simp [sell_car, hnl, hq, hr, hst]⟩
        · intro n' c' hn' hr' hs' _
          cases hn'
          rw [hr] at hr'
          cases hr'
          rw [hst] at hs'
          cases hs'
      | available =>
        by_cases h2 :
            LINE_DATA_LENGTH < (serCar { c with status := CarStatus.sold }).length
        · refine ⟨by simp [sell_car, hnl, hq, hr, hst, h2],
            by simp [sell_car, hnl, hq, hr, hst, h2],
            fun hnone => absurd hnone (by simp), ?_, ?_,
            Or.inr (Or.inr (Or.inr (Or.inl
              (by simp [sell_car, hnl, hq, hr, hst, h2]))))⟩
          · intro n' c' hn' hr' hs'
            cases hn'
            rw [hr] at hr'
            cases hr'
            rw [hst] at hs'
            cases hs'
          · intro n' c' hn' hr' _ hfit
            cases hn'
            rw [hr] at hr'
            cases hr'
            exact absurd h2 (Nat.not_lt.mpr hfit)
        · refine ⟨by simp [sell_car, hnl, hq, hr, hst, h2],
            by simp [sell_car, hnl, hq, hr, hst, h2],
            fun hnone => absurd hnone (by simp), ?_, ?_,
            Or.inr (Or.inr (Or.inr (Or.inr
              ⟨{ c with status := CarStatus.sold },
                by simp [sell_car, hnl, hq, hr, hst, h2]⟩)))⟩
          · intro n' c' hn' hr' hs'
            cases hn'
            rw [hr] at hr'
            cases hr'
            rw [hst] at hs'
            cases hs'
          · intro n' c' hn' hr' _ _
            cases hn'
            rw [hr] at hr'
            cases hr'
            exact ⟨by simp [sell_car, hnl, hq, hr, hst, h2],
              by simp [sell_car, hnl, hq, hr, hst, h2]⟩

/-- C4.  `sell_car` first appends the sale record and persists its
sales-index entry (keyed by the sale number, valued at the appended
record number); only then does it resolve the car by the sale's VIN
(NotFound when absent), reject an already-sold car (InvalidState), and
otherwise rewrite the car's record in place at its unchanged record
number with status `sold`, returning the updated car.  The first two
conjuncts hold unconditionally across the later branches, so on a
NotFound or InvalidState failure the appended sale record and its
index entry remain persisted. -/
theorem sell_car_spec (st : Store) (s : Sale)
    (hlen : (serSale s).length ≤ LINE_DATA_LENGTH) :
    ((sell_car s st).1.sales
        = st.sales ++ [.row ⟨s.sales_number, s.car_vin, s.cost, s.sales_date⟩])
    ∧ ((sell_car s st).1.salesIdx
        = dset st.salesIdx s.sales_number st.sales.length)
    ∧ (dlookup st.carsIdx s.car_vin = none →
        (sell_car s st).2 = .error .notFound
          ∧ (sell_car s st).1.cars = st.cars)
    ∧ (∀ n c, dlookup st.carsIdx s.car_vin = some n →
        readCar st.cars n = .row c → c.status = .sold →
        (sell_car s st).2 = .error .invalidState
          ∧ (sell_car s st).1.cars = st.cars)
    ∧ (∀ n c, dlookup st.carsIdx s.car_vin = some n →
        readCar st.cars n = .row c → c.status = .available →
        (serCar { c with status := CarStatus.sold }).length ≤ LINE_DATA_LENGTH →
        (sell_car s st).2 = .ok { c with status := CarStatus.sold }
          ∧ (sell_car s st).1.cars
              = st.cars.set n (.row { c with status := CarStatus.sold })) := by
  have h := sell_car_cases st s hlen
  exact ⟨h.1, h.2.1, h.2.2.1, h.2.2.2.1, h.2.2.2.2.1⟩

/-- Example store for the sell_car witness: one model, one available
car. -/
def stSell : Store :=
  ⟨[.row ⟨1, "M", "B"⟩],
    [.row ⟨"V1", 1, "100", "2020-01-01T00:00:00", .available⟩],
    [], [("1", 0)], [("V1", 0)], []⟩

/-- C4 witness: selling the available car of `stSell` appends the sale,
persists its index entry and flips the car to `sold`. -/
theorem sell_car_spec_witness :
    (sell_car ⟨"S1", "V1", "90", "2020-01-02T00:00:00"⟩ stSell).1.sales
      = stSell.sales ++ [.row ⟨"S1", "V1", "90", "2020-01-02T00:00:00"⟩] := by
  have h := sell_car_spec stSell ⟨"S1", "V1", "90", "2020-01-02T00:00:00"⟩
    (by decide)
  exact h.1

/-- Example store with a live sale `"S1"` for the sold car `"V1"` and
a second, still available car `"V2"`. -/
def st_dup : Store :=
  ⟨[.row ⟨1, "M", "B"⟩],
    [.row ⟨"V1", 1, "100", "2020-01-01T00:00:00", .sold⟩,
      .row ⟨"V2", 1, "100", "2020-01-01T00:00:00", .available⟩],
    [.row ⟨"S1", "V1", "100", "2020-01-02T00:00:00"⟩],
    [("1", 0)], [("V1", 0), ("V2", 1)], [("S1", 0)]⟩

/-- C1, counterexample to the claim as stated: `"S1"` already has a
live entry in the sales key index of `st_dup`, yet `sell_car` with a
second sale numbered `"S1"` does not fail with DuplicateKey — it
appends a new sale record (the record count grows) and the call
succeeds outright. -/
theorem sell_car_dup_counterexample :
    dmem st_dup.salesIdx "S1" = true
    ∧ (sell_car ⟨"S1", "V2", "150", "2020-01-03T00:00:00"⟩ st_dup).1.sales.length
        = st_dup.sales.length + 1
    ∧ (sell_car ⟨"S1", "V2", "150", "2020-01-03T00:00:00"⟩ st_dup).2.toOption
        = some ⟨"V2", 1, "100", "2020-01-01T00:00:00", CarStatus.sold⟩ := by
  refine ⟨by decide, by decide, by decide⟩

/-- C1 (amended).  `sell_car` performs no duplicate check on the sale
number: when the number already has a live index entry, the sale is
still appended as a new record, the call never fails with
DuplicateKey, and the existing index entry is overwritten in place to
point at the new record — so the index entry count is unchanged while
the sale file grows by one record. -/
theorem sell_car_no_duplicate_check (st : Store) (s : Sale)
    (hlen : (serSale s).length ≤ LINE_DATA_LENGTH)
    (hdup : dmem st.salesIdx s.sales_number = true) :
    ((sell_car s st).1.sales
        = st.sales ++ [.row ⟨s.sales_number, s.car_vin, s.cost, s.sales_date⟩])
    ∧ (sell_car s st).2 ≠ .error Err.duplicateKey
    ∧ (sell_car s st).1.salesIdx.length = st.salesIdx.length
    ∧ dlookup (sell_car s st).1.salesIdx s.sales_number
        = some st.sales.length := by
  have h := sell_car_cases st s hlen
  refine ⟨h.1, ?_, ?_, ?_⟩
  · rcases h.2.2.2.2.2 with he | he | he | he | ⟨c, he⟩ <;> rw [he] <;> simp
  · rw [h.2.1]
    exact dset_length_of_mem _ _ _ hdup
  · rw [h.2.1]
    exact dlookup_dset_self _ _ _

/-- C1 witness: for the duplicate sale of `st_dup`, the amended claim's
conclusions evaluated concretely. -/
theorem sell_car_no_duplicate_check_witness :
    dmem st_dup.salesIdx "S1" = true
    ∧ (sell_car ⟨"S1", "V2", "150", "2020-01-03T00:00:00"⟩ st_dup).1.salesIdx.length
        = st_dup.salesIdx.length :=
  ⟨by decide,
    (sell_car_no_duplicate_check st_dup ⟨"S1", "V2", "150", "2020-01-03T00:00:00"⟩
      (by decide) (by decide)).2.2.1⟩

/-! ## More dictionary lemmas -/

lemma self_mem_dset (d : List (String × Nat)) (k : String) (v : Nat) :
    (k, v) ∈ dset d k v := by
  induction d with
  | nil => simp [dset]
  | cons p rest ih =>
    by_cases hp : p.1 = k
    · simp [dset, hp]
    · simp only [dset, if_neg hp, List.mem_cons]
      exact Or.inr ih

lemma dmem_false_iff (d : List (String × Nat)) (k : String) :
    dmem d k = false ↔ dlookup d k = none := by
  unfold dmem
  cases dlookup d k <;> simp

lemma mem_ddel_ne (d : List (String × Nat)) (k : String) :
    ∀ q ∈ ddel d k, q.1 ≠ k := by
  intro q hq
  have hfil := (List.mem_filter.mp hq).2
  simpa using hfil

lemma dlookup_ddel_ne (d : List (String × Nat)) (k k' : String)
    (h : k ≠ k') : dlookup (ddel d k') k = dlookup d k := by
  induction d with
  | nil => rfl
  | cons p rest ih =>
    by_cases hp : p.1 = k'
    · have hpk : ¬ p.1 = k := by
        rw [hp]
        exact fun he => h he.symm
      have hfil : ddel (p :: rest) k' = ddel rest k' := by
        simp [ddel, List.filter_cons, hp]
      rw [hfil, ih]
      simp only [dlookup, if_neg hpk]
    · have hfil : ddel (p :: rest) k' = p :: ddel rest k' := by
        simp [ddel, List.filter_cons, hp]
      rw [hfil]
      simp only [dlookup]
      by_cases hpk : p.1 = k
      · rw [if_pos hpk, if_pos hpk]
      · rw [if_neg hpk, if_neg hpk, ih]

/-! ## update_vin (claims C6 and C10) -/

/-- C6.  `update_vin(old, new)` fails with DuplicateKey when `new`
already has a live index entry, with NotFound when `old` does not
resolve (each leaving the store untouched), and otherwise rewrites the
car's stored record at its unchanged record number with only the VIN
field replaced — model id, price, start date and status untouched —
removes `old` from the car index, inserts `new` at the same record
number, and persists the index sorted ascending by key; the other
files and indexes are untouched. -/
theorem update_vin_spec (st : Store) (old new : String) :
    (dmem st.carsIdx new = true →
      update_vin old new st = (st, .error .duplicateKey))
    ∧ (dmem st.carsIdx new = false → dlookup st.carsIdx old = none →
      update_vin old new st = (st, .error .notFound))
    ∧ (∀ n c, dmem st.carsIdx new = false →
      dlookup st.carsIdx old = some n → readCar st.cars n = .row c →
      (serCar { c with vin := new }).length ≤ LINE_DATA_LENGTH →
      (update_vin old new st).2 = .ok { c with vin := new }
      ∧ (update_vin old new st).1.cars
          = st.cars.set n (.row { c with vin := new })
      ∧ (update_vin old new st).1.carsIdx
          = sortL keyLE (dset (ddel st.carsIdx old) new n)
      ∧ (update_vin old new st).1.carsIdx.Pairwise (fun a b => a.1 ≤ b.1)
      ∧ dlookup (update_vin old new st).1.carsIdx old = none
      ∧ dlookup (update_vin old new st).1.carsIdx new = some n
      ∧ (update_vin old new st).1.models = st.models
      ∧ (update_vin old new st).1.sales = st.sales
      ∧ (update_vin old new st).1.modelsIdx = st.modelsIdx
      ∧ (update_vin old new st).1.salesIdx = st.salesIdx) := by
  refine ⟨?_, ?_, ?_⟩
  · intro h
    simp [update_vin, h]
  · intro h1 h2
    simp [update_vin, h1, h2]
  · intro n c h1 h2 h3 h4
    have hnl : ¬ LINE_DATA_LENGTH < (serCar { c with vin := new }).length :=
      Nat.not_lt.mpr h4
    have hno : new ≠ old := by
      intro he
      rw [← he] at h2
      rw [(dmem_false_iff st.carsIdx new).mp h1] at h2
      cases h2
    have hupd : update_vin old new st =
        ({ st with
            cars := st.cars.set n (.row { c with vin := new }),
            carsIdx := sortL keyLE (dset (ddel st.carsIdx old) new n) },
          .ok { c with vin := new }) := by
      simp [update_vin, h1, h2, h3, hnl]
    have hmemsort : ∀ q, q ∈ sortL keyLE (dset (ddel st.carsIdx old) new n) ↔
        q ∈ dset (ddel st.carsIdx old) new n := fun q =>
      (sortL_perm keyLE _).mem_iff
    refine ⟨by rw [hupd], by rw [hupd], by rw [hupd], ?_, ?_, ?_,
      by rw [hupd], by rw [hupd], by rw [hupd], by rw [hupd]⟩
    · rw [hupd]
      have hs := sortL_sorted keyLE keyLE_total keyLE_trans
        (dset (ddel st.carsIdx old) new n)
      exact hs.imp (fun hab => by simpa [keyLE] using hab)
    · rw [hupd]
      show dlookup (sortL keyLE (dset (ddel st.carsIdx old) new n)) old = none
      rw [dlookup_eq_none_iff]
      intro q hq
      rcases mem_dset _ _ _ q ((hmemsort q).mp hq) with hdd | rfl
      · exact mem_ddel_ne _ _ q hdd
      · exact hno
    · rw [hupd]
      show dlookup (sortL keyLE (dset (ddel st.carsIdx old) new n)) new = some n
      refine dlookup_of_mem_unique _ _ _ ?_ ?_
      · exact (hmemsort _).mpr (self_mem_dset _ _ _)
      · intro q hq hqk
        rcases mem_dset _ _ _ q ((hmemsort q).mp hq) with hdd | h
        · exfalso
          have hmem : q ∈ st.carsIdx := mem_ddel _ _ q hdd
          have hne : dlookup st.carsIdx new ≠ none := by
            intro hnone
            rw [dlookup_eq_none_iff] at hnone
            exact hnone q hmem hqk
          have htrue : dmem st.carsIdx new = true := by
            unfold dmem
            cases hdm : dlookup st.carsIdx new
            · exact absurd hdm hne
            · rfl
          rw [h1] at htrue
          cases htrue
        · exact h

/-- C6 witness: renaming the available car of `stSell` from `"V1"` to
`"V9"` succeeds and drops the old key from the index. -/
theorem update_vin_spec_witness :
    (update_vin "V1" "V9" stSell).2
      = .ok ⟨"V9", 1, "100", "2020-01-01T00:00:00", CarStatus.available⟩
    ∧ dlookup (update_vin "V1" "V9" stSell).1.carsIdx "V1" = none := by
  have h := (update_vin_spec stSell "V1" "V9").2.2 0
    ⟨"V1", 1, "100", "2020-01-01T00:00:00", CarStatus.available⟩
    (by decide) (by decide) (by decide) (by decide)
  exact ⟨h.1, h.2.2.2.2.1⟩

/-- C10.  For any VIN with a live car-index entry, `update_vin(v, v)`
fails with DuplicateKey, because the duplicate check on the new VIN
runs before the old VIN is resolved; the store is returned untouched,
so a car can never be renamed to its own current VIN. -/
theorem update_vin_self_dup (st : Store) (v : String)
    (h : dmem st.carsIdx v = true) :
    update_vin v v st = (st, .error .duplicateKey) := by
  simp [update_vin, h]

/-- C10 witness: renaming `"V1"` of `st_dup` to itself is rejected with
DuplicateKey and the store is unchanged. -/
theorem update_vin_self_dup_witness :
    dmem st_dup.carsIdx "V1" = true
    ∧ update_vin "V1" "V1" st_dup = (st_dup, .error .duplicateKey) :=
  ⟨by decide, update_vin_self_dup st_dup "V1" (by decide)⟩

/-! ## revert_sale and its sales-index update (claim C3) -/

/-- Example store with one sold car `"V1"`, its live sale `"S1"` and
the corresponding index entries. -/
def st_rev : Store :=
  ⟨[.row ⟨1, "M", "B"⟩],
    [.row ⟨"V1", 1, "100", "2020-01-01T00:00:00", .sold⟩],
    [.row ⟨"S1", "V1", "100", "2020-01-02T00:00:00"⟩],
    [("1", 0)], [("V1", 0)], [("S1", 0)]⟩

/-- C3, counterexample to the claim as stated: `revert_sale "S1"` on
`st_rev` succeeds (the car comes back as available), yet the sales key
index still contains the entry for the sale's key `"S1"` afterwards —
the code deletes the key `sale_vin`, not `sales_number`. -/
theorem revert_sale_key_counterexample :
    (revert_sale "S1" st_rev).2.toOption
      = some ⟨"V1", 1, "100", "2020-01-01T00:00:00", CarStatus.available⟩
    ∧ dlookup (revert_sale "S1" st_rev).1.salesIdx "S1" = some 0 :=
  ⟨by decide, by decide⟩

/-- C3 (amended).  After a successful `revert_sale(sales_number)`, the
sale record is tombstoned in place, but the sales key index keeps the
entry for `sales_number`: the operation instead removes the entry
keyed by the sale's *VIN* when one is present (and leaves the index
untouched otherwise), so whenever the VIN differs from the sale
number, the tombstoned sale's own index entry survives. -/
theorem revert_sale_removes_vin_key (st : Store) (num : String)
    (ln : Nat) (v cs ds : String) (n : Nat) (c : Car)
    (hscan : revert_scan num st.sales 0 ⟨false, none, none, none, none⟩
      = ⟨true, some ln, some v, some cs, some ds⟩)
    (hcar : dlookup st.carsIdx v = some n)
    (hread : readCar st.cars n = .row c)
    (hsold : c.status = .sold)
    (hlen1 : (("DELETED_" ++ num) ++ "|" ++ v ++ "|" ++ cs ++ "|" ++ ds).length
      ≤ LINE_DATA_LENGTH)
    (hlen2 : (serCar { c with status := CarStatus.available }).length
      ≤ LINE_DATA_LENGTH) :
    (revert_sale num st).2 = .ok { c with status := CarStatus.available }
    ∧ (revert_sale num st).1.sales
        = st.sales.set ln (.row ⟨"DELETED_" ++ num, v, cs, ds⟩)
    ∧ (revert_sale num st).1.salesIdx
        = (if dmem st.salesIdx v then ddel st.salesIdx v else st.salesIdx)
    ∧ (dmem st.salesIdx num = true → v ≠ num →
        dmem (revert_sale num st).1.salesIdx num = true) := by
  have hnl1 : ¬ LINE_DATA_LENGTH
      < (("DELETED_" ++ num) ++ "|" ++ v ++ "|" ++ cs ++ "|" ++ ds).length :=
    Nat.not_lt.mpr hlen1
  have hnl2 : ¬ LINE_DATA_LENGTH
      < (serCar { c with status := CarStatus.available }).length :=
    Nat.not_lt.mpr hlen2
  have hnl1n : ¬ LINE_DATA_LENGTH < "DELETED_".length + num.length
      + "|".length + v.length + "|".length + cs.length + "|".length
      + ds.length := by
    simpa using hnl1
  have hsi : (revert_sale num st).1.salesIdx
      = (if dmem st.salesIdx v then ddel st.salesIdx v else st.salesIdx) := by
    by_cases hv : dmem st.salesIdx v = true
    · simp [revert_sale, hscan, hcar, hread, hsold, hnl1, hnl1n, hnl2, hv]
    · simp [revert_sale, hscan, hcar, hread, hsold, hnl1, hnl1n, hnl2, hv]
  refine ⟨?_, ?_, hsi, ?_⟩
  · by_cases hv : dmem st.salesIdx v = true
    · simp [revert_sale, hscan, hcar, hread, hsold, hnl1, hnl1n, hnl2, hv]
    · simp [revert_sale, hscan, hcar, hread, hsold, hnl1, hnl1n, hnl2, hv]
  · by_cases hv : dmem st.salesIdx v = true
    · simp [revert_sale, hscan, hcar, hread, hsold, hnl1, hnl1n, hnl2, hv]
    · simp [revert_sale, hscan, hcar, hread, hsold, hnl1, hnl1n, hnl2, hv]
  · intro hnum hne
    rw [hsi]
    by_cases hv : dmem st.salesIdx v = true
    · rw [if_pos hv]
      unfold dmem at hnum ⊢
      rw [dlookup_ddel_ne st.salesIdx num v (Ne.symm hne)]
      exact hnum
    · rw [if_neg hv]
      exact hnum

/-- C3 witness: reverting `"S1"` on `st_rev` succeeds, and the index
entry for `"S1"` indeed survives. -/
theorem revert_sale_removes_vin_key_witness :
    (revert_sale "S1" st_rev).2
      = .ok ⟨"V1", 1, "100", "2020-01-01T00:00:00", CarStatus.available⟩
    ∧ dmem (revert_sale "S1" st_rev).1.salesIdx "S1" = true := by
  have h := revert_sale_removes_vin_key st_rev "S1" 0 "V1" "100"
    "2020-01-02T00:00:00" 0 ⟨"V1", 1, "100", "2020-01-01T00:00:00", .sold⟩
    (by decide) (by decide) (by decide) rfl (by decide) (by decide)
  exact ⟨h.1, h.2.2.2 (by decide) (by decide)⟩

/-! ## get_cars (claim C8) -/

lemma get_cars_fold (status : CarStatus) (l : List CarLine) :
    ∀ acc : List Car,
      l.foldl
        (fun acc l =>
          match l with
          | .row c =>
            if carParses c then
              (if c.status = status then acc ++ [c] else acc)
            else acc
          | _ => acc) acc
      = acc ++ ((l.filterMap
          (fun ln =>
            match ln with
            | .row c => if carParses c then some c else none
            | _ => none)).filter (fun c => decide (c.status = status))) := by
  induction l with
  | nil => intro acc; simp
  | cons x l ih =>
    intro acc
    cases x with
    | blank => simpa using ih acc
    | malformed => simpa using ih acc
    | row c =>
      by_cases hp : carParses c = true
      · by_cases hs : c.status = status
        · simpa [hp, hs] using ih (acc ++ [c])
        · simpa [hp, hs] using ih acc
      · simpa [hp] using ih acc

/-- C8.  `get_cars(status)` is the full scan of the car file in record
order: blank, malformed and unparsable records are skipped silently,
and the result is exactly the parsed cars whose status matches, in
scan (insertion) order — the filter of the scan list, not a VIN-sorted
list. -/
theorem get_cars_scan_order (st : Store) (status : CarStatus) :
    get_cars status st
      = (live_cars st).filter (fun c => decide (c.status = status)) := by
  simpa [get_cars, live_cars] using get_cars_fold status st.cars []

/-! ## The record-number invariant (claim C9) -/

lemma dlookup_mem (d : List (String × Nat)) (k : String) (v : Nat)
    (h : dlookup d k = some v) : (k, v) ∈ d := by
  induction d with
  | nil => cases h
  | cons p rest ih =>
    rcases p with ⟨pk, pv⟩
    by_cases hp : pk = k
    · have hv : pv = v := by
        simpa [dlookup, hp] using h
      simp [hp, hv]
    · have h' : dlookup rest k = some v := by
        simpa [dlookup, hp] using h
      exact List.mem_cons_of_mem _ (ih h')

lemma idx_ok_dset_append (d : List (String × Nat)) (k : String) (len : Nat)
    (h : idx_ok d len) : idx_ok (dset d k len) (len + 1) := by
  intro q hq
  rcases mem_dset _ _ _ q hq with hq' | heq
  · exact Nat.lt_succ_of_lt (h q hq')
  · rw [heq]
    exact Nat.lt_succ_self len

lemma idx_ok_dset_lt (d : List (String × Nat)) (k : String) (v len : Nat)
    (h : idx_ok d len) (hv : v < len) : idx_ok (dset d k v) len := by
  intro q hq
  rcases mem_dset _ _ _ q hq with hq' | heq
  · exact h q hq'
  · rw [heq]
    exact hv

lemma idx_ok_ddel (d : List (String × Nat)) (k : String) (len : Nat)
    (h : idx_ok d len) : idx_ok (ddel d k) len :=
  fun q hq => h q (mem_ddel _ _ q hq)

lemma idx_ok_sortL (keep : String × Nat → String × Nat → Bool)
    (d : List (String × Nat)) (len : Nat) (h : idx_ok d len) :
    idx_ok (sortL keep d) len :=
  fun q hq => h q ((sortL_perm keep d).mem_iff.mp hq)

/-- C9.  The store invariant — every key-index value is a valid record
number of its file, i.e. strictly below the file's line count — is
preserved by every mutating repository operation, on success and on
every failure path alike: appends index the record number returned by
the append (the pre-write line count), and in-place rewrites reuse an
existing in-range record number, never changing a file's length.  (The
remaining operations, `get_cars`, `get_car_info` and
`top_models_by_sales`, are read-only and return no state.) -/
theorem index_values_in_range (st : Store) (h : WF st) :
    (∀ m, WF (add_model m st).1)
    ∧ (∀ c, WF (add_car c st).1)
    ∧ (∀ s, WF (sell_car s st).1)
    ∧ (∀ old new, WF (update_vin old new st).1)
    ∧ (∀ num, WF (revert_sale num st).1) := by
  obtain ⟨hm, hc, hs⟩ := h
  refine ⟨?_, ?_, ?_, ?_, ?_⟩
  · intro m
    simp only [add_model]
    split
    · exact ⟨hm, hc, hs⟩
    · split
      · exact ⟨hm, hc, hs⟩
      · refine ⟨?_, hc, hs⟩
        show idx_ok (dset st.modelsIdx (toString m.id) st.models.length)
          (st.models ++ [ModelLine.row m]).length
        have hlen : (st.models ++ [ModelLine.row m]).length
            = st.models.length + 1 := by simp
        rw [hlen]
        exact idx_ok_dset_append _ _ _ hm
  · intro c
    simp only [add_car]
    split
    · exact ⟨hm, hc, hs⟩
    · split
      · exact ⟨hm, hc, hs⟩
      · split
        · exact ⟨hm, hc, hs⟩
        · refine ⟨hm, ?_, hs⟩
          show idx_ok (dset st.carsIdx c.vin st.cars.length)
            (st.cars ++ [CarLine.row c]).length
          have hlen : (st.cars ++ [CarLine.row c]).length
              = st.cars.length + 1 := by simp
          rw [hlen]
          exact idx_ok_dset_append _ _ _ hc
  · intro s
    have hs1 : idx_ok (dset st.salesIdx s.sales_number st.sales.length)
        (st.sales ++
          [SaleLine.row ⟨s.sales_number, s.car_vin, s.cost, s.sales_date⟩]).length := by
      have hlen : (st.sales ++
          [SaleLine.row ⟨s.sales_number, s.car_vin, s.cost, s.sales_date⟩]).length
          = st.sales.length + 1 := by simp
      rw [hlen]
      exact idx_ok_dset_append _ _ _ hs
    simp only [sell_car]
    split
    · exact ⟨hm, hc, hs⟩
    · split
      · exact ⟨hm, hc, hs1⟩
      · split
        · split
          · exact ⟨hm, hc, hs1⟩
          · split
            · exact ⟨hm, hc, hs1⟩
            · refine ⟨hm, ?_, hs1⟩
              simp only [List.length_set]
              exact hc
        · exact ⟨hm, hc, hs1⟩
  · intro old new
    simp only [update_vin]
    split
    · exact ⟨hm, hc, hs⟩
    · split
      · exact ⟨hm, hc, hs⟩
      · split
        · split
          · exact ⟨hm, hc, hs⟩
          · refine ⟨hm, ?_, hs⟩
            simp only [List.length_set]
            refine idx_ok_sortL _ _ _
              (idx_ok_dset_lt _ _ _ _ (idx_ok_ddel _ _ _ hc) ?_)
            exact hc _ (dlookup_mem _ _ _ (by assumption))
        · exact ⟨hm, hc, hs⟩
  · intro num
    simp only [revert_sale]
    split
    · exact ⟨hm, hc, hs⟩
    · split
      · split
        · exact ⟨hm, hc, hs⟩
        · split
          · split
            · exact ⟨hm, hc, hs⟩
            · split
              · exact ⟨hm, hc, hs⟩
              · split
                · split
                  · refine ⟨hm, hc, ?_⟩
                    simp only [List.length_set]
                    exact idx_ok_ddel _ _ _ hs
                  · refine ⟨hm, hc, ?_⟩
                    simp only [List.length_set]
                    exact hs
                · split
                  · refine ⟨hm, ?_, ?_⟩
                    · simp only [List.length_set]
                      exact hc
                    · simp only [List.length_set]
                      exact idx_ok_ddel _ _ _ hs
                  · refine ⟨hm, ?_, ?_⟩
                    · simp only [List.length_set]
                      exact hc
                    · simp only [List.length_set]
                      exact hs
          · exact ⟨hm, hc, hs⟩
      · exact ⟨hm, hc, hs⟩

/-- C9 witness: the invariant of the two-car store `st_dup` holds and
is preserved. -/
theorem index_values_in_range_witness :
    WF st_dup ∧ WF (add_model ⟨2, "N", "B2"⟩ st_dup).1 :=
  ⟨by decide, (index_values_in_range st_dup (by decide)).1 ⟨2, "N", "B2"⟩⟩

/-! ## get_car_info and the sale scan (claim C2) -/

/-- Every sale record of the file whose VIN matches has a parsable cost
and date (so the scan never retains a partial assignment). -/
def cleanSalesFor (vin : String) (sales : List SaleLine) : Bool :=
  sales.all
    (fun l =>
      match l with
      | .row s =>
        (s.car_vin != vin)
          || ((parseDec s.cost).isSome && isoDateOk s.sales_date)
      | _ => true)

/-- The running sale scan of `get_car_info` computes the cost and date
of the first record whose VIN matches — with no tombstone filtering —
whenever all matching records parse. -/
lemma sale_scan_first_match (vin : String) (sales : List SaleLine)
    (hclean : cleanSalesFor vin sales = true) :
    sale_scan vin sales (none, none)
      = ((first_sale_match vin sales).map Prod.fst,
         (first_sale_match vin sales).map Prod.snd) := by
  induction sales with
  | nil => rfl
  | cons l rest ih =>
    have hsplit := hclean
    simp only [cleanSalesFor, List.all_cons, Bool.and_eq_true] at hsplit
    obtain ⟨hx, hrest⟩ := hsplit
    cases l with
    | blank =>
      simp only [sale_scan, first_sale_match, List.findSome?_cons]
      exact ih hrest
    | malformed =>
      simp only [sale_scan, first_sale_match, List.findSome?_cons]
      exact ih hrest
    | row s =>
      by_cases hv : s.car_vin = vin
      · have hps : (parseDec s.cost).isSome = true
            ∧ isoDateOk s.sales_date = true := by
          rw [Bool.or_eq_true] at hx
          rcases hx with hx | hx
          · rw [bne_iff_ne] at hx
            exact absurd hv hx
          · rw [Bool.and_eq_true] at hx
            exact hx
        obtain ⟨q, hq⟩ := Option.isSome_iff_exists.mp hps.1
        simp [sale_scan, first_sale_match, List.findSome?_cons, hv, hq, hps.2]
      · have h1 := ih hrest
        simp only [first_sale_match, List.findSome?_cons] at h1 ⊢
        simpa [sale_scan, hv] using h1

/-- Example store: sold car `"V1"`, whose first matching sale record is
tombstoned (`"DELETED_S1"`, cost 100) while a live sale `"S2"`
(cost 200) follows it. -/
def st_tomb : Store :=
  ⟨[.row ⟨1, "M", "B"⟩],
    [.row ⟨"V1", 1, "100", "2020-01-01T00:00:00", .sold⟩],
    [.row ⟨"DELETED_S1", "V1", "100", "2020-01-02T00:00:00"⟩,
      .row ⟨"S2", "V1", "200", "2020-01-03T00:00:00"⟩],
    [("1", 0)], [("V1", 0)], [("S2", 1)]⟩

/-- C2, counterexample to the claim as stated: in `st_tomb` the first
live sale of `"V1"` has cost `"200"`, but `get_car_info` returns the
cost `"100"` of the preceding tombstoned record — the scan has no
tombstone check, so a tombstoned record can be the source of the sale
fields. -/
theorem get_car_info_tombstone_counterexample :
    delMarked "DELETED_S1" = true
    ∧ (get_car_info "V1" st_tomb).map (fun v => v.sales_cost)
        = some (some "100") :=
  ⟨by decide, by decide⟩

/-- C2 (amended).  For a VIN resolving to a sold car (with its model
resolving too), `get_car_info` takes the cost and date of the *first*
sale record in scan order whose VIN matches, whether that record is
live or tombstoned; tombstoned records are not skipped.  (Stated for
sale files whose matching records parse, so the scan's running state
never retains a partial assignment.) -/
theorem get_car_info_first_match (st : Store) (vin : String)
    (n : Nat) (c : Car) (mn : Nat) (m : Model)
    (hn : dlookup st.carsIdx vin = some n)
    (hc : readCar st.cars n = .row c)
    (hsold : c.status = .sold)
    (hm : dlookup st.modelsIdx (toString c.model) = some mn)
    (hmr : readModel st.models mn = .row m)
    (hclean : cleanSalesFor vin st.sales = true) :
    get_car_info vin st
      = some ⟨c.vin, m.name, m.brand, c.price, c.date_start, c.status,
          (first_sale_match vin st.sales).map Prod.snd,
          (first_sale_match vin st.sales).map Prod.fst⟩ := by
  simp only [get_car_info, hn, hc, hm, hmr, hsold, if_true,
    sale_scan_first_match vin st.sales hclean]

/-- C2 witness: on `st_tomb` (whose matching sales all parse), the
amended claim applied concretely — the first match is the tombstoned
record with cost `"100"`. -/
theorem get_car_info_first_match_witness :
    get_car_info "V1" st_tomb
      = some ⟨"V1", "M", "B", "100", "2020-01-01T00:00:00", CarStatus.sold,
          (first_sale_match "V1" st_tomb.sales).map Prod.snd,
          (first_sale_match "V1" st_tomb.sales).map Prod.fst⟩ :=
  get_car_info_first_match st_tomb "V1" 0
    ⟨"V1", 1, "100", "2020-01-01T00:00:00", .sold⟩ 0 ⟨1, "M", "B"⟩
    (by decide) (by decide) rfl (by decide) (by decide) (by decide)

/-! ## top_models_by_sales (claim C7)

The loop's dict accumulation is related to the declarative per-model
counts and totals of `stats_spec`. -/

lemma topStep_foldl_eq (cidx : List (String × Nat)) (cars : List CarLine)
    (l : List SaleLine) :
    ∀ init, l.foldl (topStep cidx cars) init
      = (l.filterMap (saleExtract cidx cars)).foldl
          (fun acc p => bump acc p.1 p.2) init := by
  induction l with
  | nil => intro init; rfl
  | cons x l ih =>
    intro init
    cases hfx : saleExtract cidx cars x with
    | none => simp [List.filterMap_cons, hfx, ih, topStep]
    | some b => simp [List.filterMap_cons, hfx, ih, topStep]

lemma keys_foldl_mem (L : List (Int × ℚ)) :
    ∀ (ks : List Int) (m : Int),
      m ∈ L.foldl (fun ks p => if p.1 ∈ ks then ks else ks ++ [p.1]) ks
        ↔ m ∈ ks ∨ ∃ p ∈ L, p.1 = m := by
  induction L with
  | nil => intro ks m; simp
  | cons q L ih =>
    intro ks m
    by_cases hq : q.1 ∈ ks
    · rw [List.foldl_cons, if_pos hq, ih]
      constructor
      · rintro (hm | hm)
        · exact Or.inl hm
        · exact Or.inr (by simpa using Or.inr hm)
      · rintro (hm | hm)
        · exact Or.inl hm
        · rcases (by simpa using hm : q.1 = m ∨ ∃ p ∈ L, p.1 = m) with rfl | h
          · exact Or.inl hq
          · exact Or.inr h
    · rw [List.foldl_cons, if_neg hq, ih]
      constructor
      · rintro (hm | hm)
        · rcases List.mem_append.mp hm with h | h
          · exact Or.inl h
          · have hqm : m = q.1 := by simpa using h
            exact Or.inr ⟨q, by simp, hqm.symm⟩
        · exact Or.inr (by simpa using Or.inr hm)
      · rintro (hm | hm)
        · exact Or.inl (List.mem_append.mpr (Or.inl hm))
        · rcases (by simpa using hm : q.1 = m ∨ ∃ p ∈ L, p.1 = m) with rfl | h
          · exact Or.inl (List.mem_append.mpr (Or.inr (by simp)))
          · exact Or.inr h

lemma mem_keys_in_order (L : List (Int × ℚ)) (m : Int) :
    m ∈ keys_in_order L ↔ ∃ p ∈ L, p.1 = m := by
  simpa [keys_in_order] using keys_foldl_mem L [] m

lemma keys_foldl_nodup (L : List (Int × ℚ)) :
    ∀ ks : List Int, ks.Nodup →
      (L.foldl (fun ks p => if p.1 ∈ ks then ks else ks ++ [p.1]) ks).Nodup := by
  induction L with
  | nil => intro ks h; exact h
  | cons q L ih =>
    intro ks h
    by_cases hq : q.1 ∈ ks
    · rw [List.foldl_cons, if_pos hq]
      exact ih ks h
    · rw [List.foldl_cons, if_neg hq]
      refine ih _ ?_
      simpa [List.nodup_append] using ⟨h, hq⟩

lemma keys_in_order_nodup (L : List (Int × ℚ)) : (keys_in_order L).Nodup :=
  keys_foldl_nodup L [] List.nodup_nil

lemma keys_in_order_append (L : List (Int × ℚ)) (p : Int × ℚ) :
    keys_in_order (L ++ [p])
      = if p.1 ∈ keys_in_order L then keys_in_order L
        else keys_in_order L ++ [p.1] := by
  simp [keys_in_order, List.foldl_append]

lemma bump_map_of_mem (g : Int → Int × Nat × ℚ) (hg : ∀ k, (g k).1 = k)
    (m : Int) (q : ℚ) :
    ∀ ks : List Int, ks.Nodup → m ∈ ks →
      bump (ks.map g) m q
        = ks.map (fun k =>
            if k = m then (m, (g k).2.1 + 1, (g k).2.2 + q) else g k) := by
  intro ks
  induction ks with
  | nil => intro _ h; cases h
  | cons k ks ih =>
    intro hnd hm
    rcases List.nodup_cons.mp hnd with ⟨hk, hnd'⟩
    by_cases hkm : k = m
    · have hnotin : ∀ k' ∈ ks, k' ≠ m := by
        intro k' hk' he
        rw [he, ← hkm] at hk'
        exact hk hk'
      simp only [List.map_cons, bump, hg, if_pos hkm]
      congr 1
      refine (List.map_congr_left ?_).symm
      intro k' hk'
      rw [if_neg (hnotin k' hk')]
    · have hm' : m ∈ ks := by
        rcases List.mem_cons.mp hm with he | h
        · exact absurd he.symm hkm
        · exact h
      simp only [List.map_cons, bump, hg, if_neg hkm]
      rw [ih hnd' hm']

lemma bump_map_of_not_mem (g : Int → Int × Nat × ℚ) (hg : ∀ k, (g k).1 = k)
    (m : Int) (q : ℚ) :
    ∀ ks : List Int, m ∉ ks →
      bump (ks.map g) m q = ks.map g ++ [(m, 1, q)] := by
  intro ks
  induction ks with
  | nil => intro _; rfl
  | cons k ks ih =>
    intro hm
    have hkm : ¬ k = m := fun he => hm (by simp [he])
    have hm' : m ∉ ks := fun h => hm (List.mem_cons_of_mem _ h)
    simp only [List.map_cons, bump, hg, if_neg hkm, List.cons_append]
    rw [ih hm']

/-- The dict-backed accumulation of the aggregation loop equals the
declarative per-model counting of `stats_spec`. -/
lemma bump_foldl_stats (L : List (Int × ℚ)) :
    L.foldl (fun acc p => bump acc p.1 p.2) [] = stats_spec L := by
  induction L using List.reverseRecOn with
  | nil => rfl
  | append_singleton L p ih =>
    rw [List.foldl_append, List.foldl_cons, List.foldl_nil, ih]
    by_cases hm : p.1 ∈ keys_in_order L
    · have hb := bump_map_of_mem
        (fun m => (m, L.countP (fun pp => pp.1 == m),
          ((L.filter (fun pp => pp.1 == m)).map (fun pp => pp.2)).sum))
        (fun k => rfl) p.1 p.2 (keys_in_order L) (keys_in_order_nodup L) hm
      simp only [stats_spec]
      rw [keys_in_order_append, if_pos hm, hb]
      apply List.map_congr_left
      intro k hk
      by_cases hkp : k = p.1
      · subst hkp
        simp [List.countP_append, List.filter_append, List.countP_cons,
          List.filter_cons]
      · have hne : (p.1 == k) = false :=
          beq_eq_false_iff_ne.mpr (fun he => hkp he.symm)
        simp [hkp, hne, List.countP_append, List.filter_append,
          List.countP_cons, List.filter_cons]
    · have hb := bump_map_of_not_mem
        (fun m => (m, L.countP (fun pp => pp.1 == m),
          ((L.filter (fun pp => pp.1 == m)).map (fun pp => pp.2)).sum))
        (fun k => rfl) p.1 p.2 (keys_in_order L) hm
      simp only [stats_spec]
      rw [keys_in_order_append, if_neg hm, hb, List.map_append]
      congr 1
      · apply List.map_congr_left
        intro k hk
        have hkp : ¬ k = p.1 := fun he => hm (he ▸ hk)
        have hne : (p.1 == k) = false :=
          beq_eq_false_iff_ne.mpr (fun he => hkp he.symm)
        simp [hne, List.countP_append, List.filter_append, List.countP_cons,
          List.filter_cons]
      · have hcnt : L.countP (fun pp => pp.1 == p.1) = 0 := by
          rw [List.countP_eq_zero]
          intro a ha hbe
          exact hm ((mem_keys_in_order L p.1).mpr ⟨a, ha, by simpa using hbe⟩)
        have hfil : L.filter (fun pp => pp.1 == p.1) = [] := by
          rw [List.filter_eq_nil_iff]
          intro a ha hbe
          exact hm ((mem_keys_in_order L p.1).mpr ⟨a, ha, by simpa using hbe⟩)
        simp [List.countP_append, List.filter_append, hcnt, hfil,
          List.countP_cons, List.filter_cons]

/-- The scan of the sale file equals the dict fold over the extracted
live resolved sales. -/
lemma stats_foldl (st : Store) :
    st.sales.foldl (topStep st.carsIdx st.cars) []
      = stats_spec (live_sale_models st) := by
  rw [topStep_foldl_eq st.carsIdx st.cars st.sales [], bump_foldl_stats]
  rfl

/-- The loop's candidates (with the guarded average) equal the
spec-side candidates (with the exact average): every accumulated model
id has at least one sale, so the zero-count guard of the source never
fires. -/
lemma candStats_eq_spec (st : Store) : candStats st = spec_cands st := by
  unfold candStats spec_cands
  rw [stats_foldl]
  simp only [stats_spec, List.map_map]
  apply List.map_congr_left
  intro k hk
  have hpos : 0 < (live_sale_models st).countP (fun pp => pp.1 == k) := by
    rcases (mem_keys_in_order _ k).mp hk with ⟨p, hp, hpk⟩
    exact List.countP_pos_iff.mpr ⟨p, hp, by simpa using hpk⟩
  simp [avgize, Function.comp, hpos]

/-- C7.  `top_models_by_sales` equals its spec-side restatement: scan
the sale file skipping blank, tombstoned and malformed records,
resolve each live sale's car through the car index to a model id,
count the sales and total their costs per model id, average as total
divided by count, sort by count then average descending (stably), keep
at most the top 3, and resolve each survivor to its model name and
brand paired with its sale count.  The sorted candidate list is a
permutation of the candidates and is pairwise ordered by count
descending with ties by average descending, and the result has at most
3 entries. -/
theorem top_models_by_sales_correct (st : Store) :
    top_models_by_sales st = top_models_spec st
    ∧ (top_models_by_sales st).length ≤ 3
    ∧ List.Perm (sortL statKeep (candStats st)) (candStats st)
    ∧ (sortL statKeep (candStats st)).Pairwise
        (fun a b => statKeyLE b a = true) := by
  refine ⟨?_, ?_, sortL_perm _ _,
    sortL_sorted _ statKeep_total statKeep_trans _⟩
  · unfold top_models_by_sales top_models_spec
    rw [candStats_eq_spec]
  · unfold top_models_by_sales
    calc (((sortL statKeep (candStats st)).take 3).filterMap
          (resolveModel st)).length
        ≤ ((sortL statKeep (candStats st)).take 3).length :=
          List.length_filterMap_le _ _
      _ ≤ 3 := by
          rw [List.length_take]
          exact min_le_left _ _

end Bibip
